import Mathlib

/-!
Verification development for the semantic response cache of the
Finance-Audit-Rag repository (`backend/services/cache_service.py`).

The Python class `SemanticCache` is shallowly embedded as follows.

* The Redis store is modelled as a list of bindings (key, ttl passed to
  `setex`, stored value), in the enumeration order that `keys("query:*")`
  returns.  A stored value either deserializes to a JSON object with
  optional fields `query`, `response`, `embedding` (a field missing from
  the object is `none`), or fails to deserialize (`corrupt`).
* The sentence-transformer encoder is modelled as an optional function
  `String → List ℝ` (`none` when loading the model failed); float vectors
  are modelled as lists of reals.
* `sklearn.metrics.pairwise.cosine_similarity` is modelled over ℝ: each
  vector is divided by its L2 norm (a zero norm is replaced by 1, exactly
  as `sklearn.preprocessing.normalize` does) and the dot product is taken.
  A shape mismatch between the two vectors raises in the library and is
  therefore a skipped entry in the scan.
* Calls into the external clients can raise; an oracle record decides,
  per call, whether the call raises.  Every `except` block of the source
  is reproduced by the corresponding branch of the Lean definitions.
-/

/-- One parsed cache entry, i.e. the JSON object stored under a key.
Fields are optional because the object on the wire may miss any of them. -/
structure CacheEntry where
  query : Option String
  response : Option String
  embedding : Option (List ℝ)

/-- A value held by the store under some key: either it deserializes to a
`CacheEntry`, or `json.loads` raises on it. -/
inductive StoredVal where
  | corrupt : StoredVal
  | val : CacheEntry → StoredVal

/-- One binding of the backing store: the key, the expiry that was passed
to `setex` when the binding was written, and the stored value. -/
structure StoreBinding where
  key : String
  ttlSet : ℕ
  value : StoredVal

/-- The state of a `SemanticCache` object: the Redis client (`none` when
the connection failed), the encoder (`none` when loading the model
failed), and the two configuration fields. -/
structure SemanticCache where
  redis_client : Option (List StoreBinding)
  encoder : Option (String → List ℝ)
  similarity_threshold : ℝ
  ttl : ℕ

/-- `SemanticCache.is_available`: both the Redis client and the encoder
initialized. -/
def SemanticCache.is_available (st : SemanticCache) : Bool :=
  st.redis_client.isSome && st.encoder.isSome

/-- `SemanticCache._normalize_query`: `query.lower().strip()`. -/
def normalize_query (q : String) : String :=
  q.toLower.trim

/-- `SemanticCache._generate_embedding`: empty vector when the encoder is
missing, otherwise the encoder's output. -/
def SemanticCache.generate_embedding (st : SemanticCache) (text : String) : List ℝ :=
  match st.encoder with
  | none => []
  | some f => f text

/-- The contents of the store as enumerated by `keys("query:*")`; empty
when the client is `none` (that path is guarded by `is_available`). -/
def storeOf (st : SemanticCache) : List StoreBinding :=
  st.redis_client.getD []

/-- Dot product of two real vectors (pairwise products, summed). -/
def dot : List ℝ → List ℝ → ℝ
  | a :: as, b :: bs => a * b + dot as bs
  | _, _ => 0

/-- L2 norm of a vector. -/
noncomputable def l2norm (v : List ℝ) : ℝ :=
  Real.sqrt (dot v v)

/-- The norm as used by `sklearn.preprocessing.normalize`: a zero norm is
replaced by 1 so that a zero row is left unscaled. -/
noncomputable def safeNorm (v : List ℝ) : ℝ :=
  if l2norm v = 0 then 1 else l2norm v

/-- `sklearn.metrics.pairwise.cosine_similarity` on two single-row
matrices of equal width. -/
noncomputable def cosineSim (a b : List ℝ) : ℝ :=
  dot a b / (safeNorm a * safeNorm b)

/-- An entry the scan can use: it deserializes, has an `embedding` field,
and that embedding has the width `D` of the query embedding (otherwise
`cosine_similarity` raises and the entry is skipped). -/
def wellFormedB (D : ℕ) : StoredVal → Bool
  | .corrupt => false
  | .val e =>
    match e.embedding with
    | none => false
    | some emb => emb.length == D

/-- The embedding of a stored value (defaulting to the empty vector). -/
def embOf : StoredVal → List ℝ
  | .corrupt => []
  | .val e => e.embedding.getD []

/-- The `response` field of a stored value, when present. -/
def responseOf : StoredVal → Option String
  | .corrupt => none
  | .val e => e.response

/-- One iteration of the scan loop of `SemanticCache.get` on a binding
whose point read succeeded: skip entries that fail to deserialize, miss
the `embedding` field, or have the wrong width; otherwise compare the
cosine similarity with the running maximum and update only on a strictly
greater value.  When the `query` field is missing, the `KeyError` is
raised after `max_similarity` and `best_match_key` were already assigned,
so those two survive while `best_match_query` keeps its old value. -/
noncomputable def scanStep (qe : List ℝ) (acc : ℝ × Option String × Option String)
    (b : StoreBinding) : ℝ × Option String × Option String :=
  match b.value with
  | .corrupt => acc
  | .val e =>
    match e.embedding with
    | none => acc
    | some emb =>
      if emb.length = qe.length then
        let s := cosineSim qe emb
        if acc.1 < s then
          match e.query with
          | some bq => (s, some b.key, some bq)
          | none => (s, some b.key, acc.2.2)
        else acc
      else acc

/-- The scan loop of `SemanticCache.get` over the enumerated bindings.
`ro k` tells whether the point read of key `k` succeeds; a raising read is
caught by the per-entry handler and the entry is skipped. -/
noncomputable def scanFold (ro : String → Bool) (qe : List ℝ)
    (acc : ℝ × Option String × Option String) (l : List StoreBinding) :
    ℝ × Option String × Option String :=
  l.foldl (fun a b => if ro b.key then scanStep qe a b else a) acc

/-- Which of the external calls made by `SemanticCache.get` raise. -/
structure GetOracle where
  embedOk : Bool
  keysOk : Bool
  readOk : String → Bool
  rereadOk : String → Bool

/-- The hit branch of `SemanticCache.get` after the scan decided for a
hit: re-read `best_match_key` and return the entry's `response` field.
Every failure raises into the outer handler, which returns `None`:
a `None` key (`redis.get(None)` raises `DataError`), a raising re-read,
a vanished or corrupt value, and a missing `response` field. -/
def reread (rro : String → Bool) (store : List StoreBinding) :
    Option String → Option String
  | none => none
  | some k =>
    if rro k = false then none
    else
      match (store.find? (fun b => b.key == k)).map StoreBinding.value with
      | none => none
      | some v => responseOf v

/-- `SemanticCache.get` under an explicit failure oracle.  Every raising
call inside the outer `try` makes the whole lookup return `None`; a
raising point read inside the loop only skips that entry.  When the hit
branch is reached with `best_match_key = None` (possible when the
threshold is ≤ 0 and nothing beat the initial maximum of 0.0), the
`redis_client.get(None)` call raises `redis.DataError` and the outer
handler returns `None`. -/
noncomputable def getFull (o : GetOracle) (st : SemanticCache) (q : String) :
    Option String :=
  if st.is_available = false then none
  else if o.embedOk = false then none
  else if o.keysOk = false then none
  else
    let qe := st.generate_embedding (normalize_query q)
    let store := storeOf st
    if store.isEmpty then none
    else
      let res := scanFold o.readOk qe (0, none, none) store
      if st.similarity_threshold ≤ res.1 then reread o.rereadOk store res.2.1
      else none

/-- `SemanticCache.get` with no external call raising. -/
noncomputable def SemanticCache.get (st : SemanticCache) (q : String) : Option String :=
  getFull ⟨true, true, fun _ => true, fun _ => true⟩ st q

/-- `setex` on the modelled store: Redis replaces the value bound to the
key, so the old binding (if any) disappears and the new one is added. -/
def setKey (l : List StoreBinding) (k : String) (b : StoreBinding) :
    List StoreBinding :=
  l.filter (fun b' => b'.key != k) ++ [b]

/-- Which of the external calls made by `SemanticCache.set` raise. -/
structure SetOracle where
  embedOk : Bool
  setexOk : Bool

/-- `SemanticCache.set` under an explicit failure oracle.  `digest` is the
`hashlib.md5(...).hexdigest()` function, an external deterministic digest.
Any raising call is caught and reported as `False` with the store
unchanged; on success the entry is written under `"query:" ++ digest`
of the normalized query, with the configured TTL. -/
def setFull (digest : String → String) (o : SetOracle) (st : SemanticCache)
    (q r : String) : SemanticCache × Bool :=
  if st.is_available = false then (st, false)
  else if o.embedOk = false then (st, false)
  else if o.setexOk = false then (st, false)
  else
    let qn := normalize_query q
    let qe := st.generate_embedding qn
    let k := "query:" ++ digest qn
    ({ st with
        redis_client :=
          some (setKey (storeOf st) k ⟨k, st.ttl, .val ⟨some qn, some r, some qe⟩⟩) },
      true)

/-- `SemanticCache.set` with no external call raising. -/
def SemanticCache.set (digest : String → String) (st : SemanticCache)
    (q r : String) : SemanticCache × Bool :=
  setFull digest ⟨true, true⟩ st q r

/-- `SemanticCache.clear`: delete every binding of the namespace and
return how many there were; a no-op returning 0 when unavailable. -/
def SemanticCache.clear (st : SemanticCache) : SemanticCache × ℕ :=
  if st.is_available = false then (st, 0)
  else ({ st with redis_client := some [] }, (storeOf st).length)

/-- The dictionary returned by `SemanticCache.stats`. -/
inductive StatsResult where
  | unavailable : String → StatsResult
  | operational : ℕ → ℝ → ℝ → Bool → StatsResult
  | failed : String → StatsResult

/-- `round(ttl / 3600, 1)`: the TTL in hours, rounded to one decimal. -/
noncomputable def ttlHours (t : ℕ) : ℝ :=
  ((round ((t : ℝ) * 10 / 3600) : ℤ) : ℝ) / 10

/-- `SemanticCache.stats`: the unavailable dictionary when the cache is
not operational, the error dictionary when `keys` raises, otherwise
status, entry count, threshold, TTL in rounded hours and the connected
flag. -/
noncomputable def statsFull (keysOk : Bool) (st : SemanticCache) : StatsResult :=
  if st.is_available = false then .unavailable ("Cache is not operational")
  else if keysOk = false then .failed ("keys raised")
  else .operational (storeOf st).length st.similarity_threshold (ttlHours st.ttl) true

/-- The configuration and environment a construction runs against:
whether the connection attempt succeeds (a failure is the caught
`redis.ConnectionError`), the pre-existing store contents, whether the
encoder loads, the encoder function, and the two configured numbers. -/
structure CacheConfig where
  connectOk : Bool
  initialStore : List StoreBinding
  encOk : Bool
  encFn : String → List ℝ
  similarity_threshold : ℝ
  ttl : ℕ

/-- `SemanticCache.__init__`: each failed initialization leaves the
corresponding field `None` instead of raising. -/
def SemanticCache.init (c : CacheConfig) : SemanticCache :=
  { redis_client := if c.connectOk then some c.initialStore else none,
    encoder := if c.encOk then some c.encFn else none,
    similarity_threshold := c.similarity_threshold,
    ttl := c.ttl }

/-- `get_cache_instance`: the module-level `_cache_instance` global is the
first argument, the returned pair is (result, new global). -/
def get_cache_instance (g : Option SemanticCache) (c : CacheConfig) :
    SemanticCache × Option SemanticCache :=
  match g with
  | some inst => (inst, some inst)
  | none =>
    let inst := SemanticCache.init c
    (inst, some inst)

/-- Maximum cosine similarity over the well-formed stored entries,
starting from 0.0 as the code does. -/
noncomputable def maxSimWF (qe : List ℝ) (l : List StoreBinding) : ℝ :=
  l.foldl
    (fun m b =>
      if wellFormedB qe.length b.value then max m (cosineSim qe (embOf b.value)) else m)
    0

/-- The same cache with only the stored entries kept that are well-formed
with respect to the width of the query embedding — the subsequence a
corruption-isolation statement compares against. -/
def keepWellFormed (st : SemanticCache) (q : String) : SemanticCache :=
  { st with
    redis_client := some ((storeOf st).filter
      (fun b =>
        wellFormedB (st.generate_embedding (normalize_query q)).length b.value)) }

/-- A concrete cache exercising the boundary of the hit test: one fully
well-formed entry whose embedding is orthogonal to every query embedding
the encoder produces, and a configured threshold of 0 (allowed by the
specified range [0,1]). -/
def zeroThresholdCache : SemanticCache :=
  ⟨some [⟨"query:k", 60, .val ⟨some ("x"), some ("resp"), some [(0 : ℝ), 1]⟩⟩],
    some (fun _ => [(1 : ℝ), 0]), 0, 60⟩

theorem dot_cons (a b : ℝ) (as bs : List ℝ) :
    dot (a :: as) (b :: bs) = a * b + dot as bs := rfl

theorem dot_self_nonneg (v : List ℝ) : 0 ≤ dot v v := by
  induction v with
  | nil => simp [dot]
  | cons a as ih =>
    rw [dot_cons]
    have := mul_self_nonneg a
    linarith

/-- Cosine similarity of a vector with a nonzero norm against itself is
exactly 1. -/
theorem cosineSim_self (v : List ℝ) (h : dot v v ≠ 0) : cosineSim v v = 1 := by
  have hpos : 0 < dot v v := lt_of_le_of_ne (dot_self_nonneg v) (Ne.symm h)
  have hs : l2norm v ≠ 0 := by
    have : 0 < Real.sqrt (dot v v) := Real.sqrt_pos.mpr hpos
    simpa [l2norm] using ne_of_gt this
  have hsafe : safeNorm v = l2norm v := by simp [safeNorm, hs]
  have hmul : l2norm v * l2norm v = dot v v := by
    simpa [l2norm] using Real.mul_self_sqrt hpos.le
  rw [cosineSim, hsafe, hmul]
  exact div_self h

theorem scanStep_not_wf (qe : List ℝ) (acc : ℝ × Option String × Option String)
    (b : StoreBinding) (h : wellFormedB qe.length b.value = false) :
    scanStep qe acc b = acc := by
  rcases b with ⟨k, t, v⟩
  cases v with
  | corrupt => rfl
  | val e =>
    rcases e with ⟨eq, er, ee⟩
    cases ee with
    | none => rfl
    | some emb =>
      have hlen : ¬ emb.length = qe.length := by
        simpa [wellFormedB] using h
      simp [scanStep, hlen]

theorem scanStep_wf_le (qe : List ℝ) (acc : ℝ × Option String × Option String)
    (b : StoreBinding) (hwf : wellFormedB qe.length b.value = true)
    (hle : cosineSim qe (embOf b.value) ≤ acc.1) :
    scanStep qe acc b = acc := by
  rcases b with ⟨k, t, v⟩
  cases v with
  | corrupt => simp [wellFormedB] at hwf
  | val e =>
    rcases e with ⟨eq, er, ee⟩
    cases ee with
    | none => simp [wellFormedB] at hwf
    | some emb =>
      have hlen : emb.length = qe.length := by
        simpa [wellFormedB] using hwf
      have hemb : embOf (StoredVal.val ⟨eq, er, some emb⟩) = emb := by
        simp [embOf]
      rw [hemb] at hle
      have hnlt : ¬ acc.1 < cosineSim qe emb := not_lt.mpr hle
      simp [scanStep, hlen, hnlt]

theorem scanStep_wf_gt (qe : List ℝ) (acc : ℝ × Option String × Option String)
    (b : StoreBinding) (hwf : wellFormedB qe.length b.value = true)
    (hgt : acc.1 < cosineSim qe (embOf b.value)) :
    (scanStep qe acc b).1 = cosineSim qe (embOf b.value) ∧
      (scanStep qe acc b).2.1 = some b.key := by
  rcases b with ⟨k, t, v⟩
  cases v with
  | corrupt => simp [wellFormedB] at hwf
  | val e =>
    rcases e with ⟨eq, er, ee⟩
    cases ee with
    | none => simp [wellFormedB] at hwf
    | some emb =>
      have hlen : emb.length = qe.length := by
        simpa [wellFormedB] using hwf
      have hemb : embOf (StoredVal.val ⟨eq, er, some emb⟩) = emb := by
        simp [embOf]
      rw [hemb] at hgt
      cases eq with
      | none => simp [scanStep, hlen, hgt, hemb]
      | some bq => simp [scanStep, hlen, hgt, hemb]

theorem scanFold_nil (ro : String → Bool) (qe : List ℝ)
    (acc : ℝ × Option String × Option String) : scanFold ro qe acc [] = acc := rfl

theorem scanFold_cons (ro : String → Bool) (qe : List ℝ)
    (acc : ℝ × Option String × Option String) (b : StoreBinding)
    (l : List StoreBinding) :
    scanFold ro qe acc (b :: l) =
      scanFold ro qe (if ro b.key then scanStep qe acc b else acc) l := rfl

theorem scanFold_append (ro : String → Bool) (qe : List ℝ)
    (acc : ℝ × Option String × Option String) (l1 l2 : List StoreBinding) :
    scanFold ro qe acc (l1 ++ l2) = scanFold ro qe (scanFold ro qe acc l1) l2 := by
  simp [scanFold, List.foldl_append]

/-- Characterization of the scan loop: either no entry was processed with
a similarity strictly above the incoming maximum and the accumulator is
returned unchanged, or the result is the similarity and key of the first
processed entry attaining the final maximum, every processed entry before
it being strictly below and every one after it at most equal. -/
theorem scanFold_spec (ro : String → Bool) (qe : List ℝ) :
    ∀ (l : List StoreBinding) (acc : ℝ × Option String × Option String),
      (scanFold ro qe acc l = acc ∧
        ∀ b ∈ l, ro b.key = true → wellFormedB qe.length b.value = true →
          cosineSim qe (embOf b.value) ≤ acc.1) ∨
      (∃ l1 b l2,
        l = l1 ++ b :: l2 ∧ ro b.key = true ∧
        wellFormedB qe.length b.value = true ∧
        cosineSim qe (embOf b.value) = (scanFold ro qe acc l).1 ∧
        (scanFold ro qe acc l).2.1 = some b.key ∧
        acc.1 < (scanFold ro qe acc l).1 ∧
        (∀ b' ∈ l1, ro b'.key = true → wellFormedB qe.length b'.value = true →
          cosineSim qe (embOf b'.value) < (scanFold ro qe acc l).1) ∧
        (∀ b' ∈ l2, ro b'.key = true → wellFormedB qe.length b'.value = true →
          cosineSim qe (embOf b'.value) ≤ (scanFold ro qe acc l).1)) := by
  intro l
  induction l with
  | nil =>
    intro acc
    exact Or.inl ⟨rfl, by simp⟩
  | cons b rest ih =>
    intro acc
    by_cases hupd : ro b.key = true ∧ wellFormedB qe.length b.value = true ∧
        acc.1 < cosineSim qe (embOf b.value)
    · obtain ⟨hro, hwf, hgt⟩ := hupd
      have hstep := scanStep_wf_gt qe acc b hwf hgt
      have hfold : scanFold ro qe acc (b :: rest) =
          scanFold ro qe (scanStep qe acc b) rest := by
        rw [scanFold_cons, if_pos hro]
      rcases ih (scanStep qe acc b) with ⟨heq, hbound⟩ |
        ⟨l1, bb, l2, hdec, hbro, hbwf, hsim, hkey, hlt, hpre, hpost⟩
      · right
        refine ⟨[], b, rest, by simp, hro, hwf, ?_, ?_, ?_, ?_, ?_⟩
        · rw [hfold, heq, hstep.1]
        · rw [hfold, heq, hstep.2]
        · rw [hfold, heq, hstep.1]; exact hgt
        · intro b' hb' _ _
          exact absurd hb' (List.not_mem_nil b')
        · intro b' hb' hro' hwf'
          rw [hfold, heq]
          exact hbound b' hb' hro' hwf'
      · right
        refine ⟨b :: l1, bb, l2, by simp [hdec], hbro, hbwf, ?_, ?_, ?_, ?_, ?_⟩
        · rw [hfold]; exact hsim
        · rw [hfold]; exact hkey
        · rw [hfold]
          calc acc.1 < cosineSim qe (embOf b.value) := hgt
            _ = (scanStep qe acc b).1 := hstep.1.symm
            _ < (scanFold ro qe (scanStep qe acc b) rest).1 := hlt
        · intro b' hb' hro' hwf'
          rcases List.mem_cons.mp hb' with h | h
          · subst h
            rw [hfold]
            calc cosineSim qe (embOf b'.value) = (scanStep qe acc b').1 := hstep.1.symm
              _ < (scanFold ro qe (scanStep qe acc b') rest).1 := hlt
          · rw [hfold]; exact hpre b' h hro' hwf'
        · intro b' hb' hro' hwf'
          rw [hfold]; exact hpost b' hb' hro' hwf'
    · push_neg at hupd
      have hble : ∀ _ : ro b.key = true, ∀ _ : wellFormedB qe.length b.value = true,
          cosineSim qe (embOf b.value) ≤ acc.1 := hupd
      have hacc : (if ro b.key then scanStep qe acc b else acc) = acc := by
        by_cases hro : ro b.key = true
        · rw [if_pos hro]
          by_cases hwf : wellFormedB qe.length b.value = true
          · exact scanStep_wf_le qe acc b hwf (hble hro hwf)
          · exact scanStep_not_wf qe acc b (by simpa using hwf)
        · rw [if_neg hro]
      have hfold : scanFold ro qe acc (b :: rest) = scanFold ro qe acc rest := by
        rw [scanFold_cons, hacc]
      rcases ih acc with ⟨heq, hbound⟩ |
        ⟨l1, bb, l2, hdec, hbro, hbwf, hsim, hkey, hlt, hpre, hpost⟩
      · left
        constructor
        · rw [hfold, heq]
        · intro b'' hb'' hro hwf
          rcases List.mem_cons.mp hb'' with h | h
          · subst h; exact hble hro hwf
          · exact hbound b'' h hro hwf
      · right
        refine ⟨b :: l1, bb, l2, by simp [hdec], hbro, hbwf, ?_, ?_, ?_, ?_, ?_⟩
        · rw [hfold]; exact hsim
        · rw [hfold]; exact hkey
        · rw [hfold]; exact hlt
        · intro b' hb' hro' hwf'
          rcases List.mem_cons.mp hb' with h | h
          · subst h
            rw [hfold]
            calc cosineSim qe (embOf b'.value) ≤ acc.1 := hble hro' hwf'
              _ < (scanFold ro qe acc rest).1 := hlt
          · rw [hfold]; exact hpre b' h hro' hwf'
        · intro b' hb' hro' hwf'
          rw [hfold]; exact hpost b' hb' hro' hwf'

theorem scanStep_fst (qe : List ℝ) (acc : ℝ × Option String × Option String)
    (b : StoreBinding) :
    (scanStep qe acc b).1 =
      if wellFormedB qe.length b.value then
        max acc.1 (cosineSim qe (embOf b.value))
      else acc.1 := by
  by_cases hwf : wellFormedB qe.length b.value = true
  · rw [if_pos hwf]
    rcases lt_or_ge acc.1 (cosineSim qe (embOf b.value)) with hgt | hge
    · rw [(scanStep_wf_gt qe acc b hwf hgt).1, max_eq_right hgt.le]
    · rw [scanStep_wf_le qe acc b hwf hge, max_eq_left hge]
  · rw [scanStep_not_wf qe acc b (by simpa using hwf), if_neg hwf]

theorem scanFold_fst (qe : List ℝ) :
    ∀ (l : List StoreBinding) (acc : ℝ × Option String × Option String),
      (scanFold (fun _ => true) qe acc l).1 =
        l.foldl
          (fun m b =>
            if wellFormedB qe.length b.value then max m (cosineSim qe (embOf b.value))
            else m)
          acc.1 := by
  intro l
  induction l with
  | nil => intro acc; rfl
  | cons b rest ih =>
    intro acc
    rw [scanFold_cons, if_pos rfl, List.foldl_cons, ih (scanStep qe acc b),
      scanStep_fst]

/-- The running maximum of the scan is exactly the maximum similarity over
the well-formed entries (with 0.0 as the starting value). -/
theorem scanFold_fst_eq_maxSimWF (qe : List ℝ) (l : List StoreBinding) :
    (scanFold (fun _ => true) qe (0, none, none) l).1 = maxSimWF qe l :=
  scanFold_fst qe l (0, none, none)

theorem scanFold_all_false (ro : String → Bool) (h : ∀ k, ro k = false)
    (qe : List ℝ) : ∀ (l : List StoreBinding)
    (acc : ℝ × Option String × Option String), scanFold ro qe acc l = acc := by
  intro l
  induction l with
  | nil => intro acc; rfl
  | cons b rest ih =>
    intro acc
    rw [scanFold_cons, h b.key]
    exact ih acc

/-- Entries that are skipped by the scan (corrupt, missing embedding,
wrong width) do not influence it: scanning a list is scanning its
well-formed sublist. -/
theorem scanFold_filter_wf (qe : List ℝ) :
    ∀ (l : List StoreBinding) (acc : ℝ × Option String × Option String),
      scanFold (fun _ => true) qe acc l =
        scanFold (fun _ => true) qe acc
          (l.filter (fun b => wellFormedB qe.length b.value)) := by
  intro l
  induction l with
  | nil => intro acc; rfl
  | cons b rest ih =>
    intro acc
    by_cases hwf : wellFormedB qe.length b.value = true
    · rw [scanFold_cons, if_pos rfl]
      simp only [List.filter_cons, hwf, if_true]
      rw [scanFold_cons, if_pos rfl]
      exact ih (scanStep qe acc b)
    · have hwf' : wellFormedB qe.length b.value = false := by simpa using hwf
      rw [scanFold_cons, if_pos rfl, scanStep_not_wf qe acc b hwf']
      simp only [List.filter_cons, hwf', Bool.false_eq_true, if_false]
      exact ih acc

/-- With pairwise distinct keys, looking a member's key up finds exactly
that member. -/
theorem find?_key_of_nodup :
    ∀ (l : List StoreBinding) (b : StoreBinding),
      (l.map StoreBinding.key).Nodup → b ∈ l →
      l.find? (fun x => x.key == b.key) = some b := by
  intro l
  induction l with
  | nil => intro b _ hmem; exact absurd hmem (List.not_mem_nil b)
  | cons c rest ih =>
    intro b hnd hmem
    have hnd' := hnd
    rw [List.map_cons, List.nodup_cons] at hnd'
    by_cases hkey : (c.key == b.key) = true
    · simp only [List.find?_cons, hkey]
      rcases List.mem_cons.mp hmem with h | h
      · rw [h]
      · exfalso
        have hck : c.key = b.key := by simpa using hkey
        exact hnd'.1 (hck ▸ List.mem_map_of_mem StoreBinding.key h)
    · have hkey' : (c.key == b.key) = false := by simpa using hkey
      simp only [List.find?_cons, hkey']
      rcases List.mem_cons.mp hmem with h | h
      · exact absurd (by rw [h]; exact beq_self_eq_true c.key) hkey
      · exact ih b hnd'.2 h

theorem find?_append_of_none {p : StoreBinding → Bool} (l1 l2 : List StoreBinding)
    (h : l1.find? p = none) : (l1 ++ l2).find? p = l2.find? p := by
  induction l1 with
  | nil => rfl
  | cons c rest ih =>
    cases hp : p c with
    | true =>
      simp only [List.find?_cons, hp] at h
      exact absurd h (by simp)
    | false =>
      simp only [List.find?_cons, hp] at h
      simp only [List.cons_append, List.find?_cons, hp]
      exact ih h

theorem reread_found (store : List StoreBinding) (b : StoreBinding)
    (hnd : (store.map StoreBinding.key).Nodup) (hmem : b ∈ store) :
    reread (fun _ => true) store (some b.key) = responseOf b.value := by
  simp [reread, find?_key_of_nodup store b hnd hmem]

theorem getFull_available (o : GetOracle) (st : SemanticCache) (q : String)
    (hav : st.is_available = true) (he : o.embedOk = true) (hk : o.keysOk = true) :
    getFull o st q =
      (if (storeOf st).isEmpty then none
       else
        if st.similarity_threshold ≤
            (scanFold o.readOk (st.generate_embedding (normalize_query q))
              (0, none, none) (storeOf st)).1 then
          reread o.rereadOk (storeOf st)
            (scanFold o.readOk (st.generate_embedding (normalize_query q))
              (0, none, none) (storeOf st)).2.1
        else none) := by
  simp [getFull, hav, he, hk]

/-- C7: construction never raises — `SemanticCache.init` is a total
function of the configuration and of the outcome of the two external
initializations, every failure leaving the corresponding field `None` —
and `is_available` is `true` exactly when both the store connection and
the encoder initialized successfully. -/
theorem init_available_iff_both (c : CacheConfig) :
    (SemanticCache.init c).is_available = (c.connectOk && c.encOk) := by
  rcases c with ⟨co, s, eo, f, thr, t⟩
  cases co <;> cases eo <;>
    simp [SemanticCache.init, SemanticCache.is_available]

/-- C9: `get_cache_instance` constructs the cache only when the global is
still unset (and then from its own configuration), and any call made with
the global already set returns exactly the original instance, untouched,
whatever configuration `c'` is passed — later parameters are silently
discarded. -/
theorem get_cache_instance_first_call_wins (c c' : CacheConfig)
    (inst : SemanticCache) :
    (get_cache_instance none c).1 = SemanticCache.init c ∧
    (get_cache_instance none c).2 = some (SemanticCache.init c) ∧
    get_cache_instance (some inst) c' = (inst, some inst) :=
  ⟨rfl, rfl, rfl⟩

/-- C4: whenever `is_available` is `false`, every operation is a silent
no-op — `get` returns `None`, `set` leaves the store untouched and
returns `False`, `clear` deletes nothing and returns 0, and `stats`
reports the `unavailable` dictionary (which carries no entry count) —
whatever the failure oracles do. -/
theorem degraded_mode_silent (st : SemanticCache) (o : GetOracle)
    (digest : String → String) (so : SetOracle) (q r : String) (ko : Bool)
    (h : st.is_available = false) :
    getFull o st q = none ∧
    setFull digest so st q r = (st, false) ∧
    SemanticCache.clear st = (st, 0) ∧
    statsFull ko st = StatsResult.unavailable ("Cache is not operational") := by
  refine ⟨?_, ?_, ?_, ?_⟩ <;>
    simp [getFull, setFull, SemanticCache.clear, statsFull, h]

theorem degraded_mode_silent_witness :
    getFull ⟨true, true, fun _ => true, fun _ => true⟩
        ⟨none, some (fun _ => [(1 : ℝ)]), 1 / 2, 60⟩ ("q") = none ∧
    setFull (fun s => s) ⟨true, true⟩
        ⟨none, some (fun _ => [(1 : ℝ)]), 1 / 2, 60⟩ ("q") ("r") =
      (⟨none, some (fun _ => [(1 : ℝ)]), 1 / 2, 60⟩, false) ∧
    SemanticCache.clear ⟨none, some (fun _ => [(1 : ℝ)]), 1 / 2, 60⟩ =
      (⟨none, some (fun _ => [(1 : ℝ)]), 1 / 2, 60⟩, 0) ∧
    statsFull true ⟨none, some (fun _ => [(1 : ℝ)]), 1 / 2, 60⟩ =
      StatsResult.unavailable ("Cache is not operational") :=
  degraded_mode_silent ⟨none, some (fun _ => [(1 : ℝ)]), 1 / 2, 60⟩
    ⟨true, true, fun _ => true, fun _ => true⟩ (fun s => s) ⟨true, true⟩
    ("q") ("r") true rfl

/-- C10: `get` is total — for every query, state and behavior of the
external calls it returns `None` or a response string, never propagating
an exception — and each internal failure (a raising embedding or key
enumeration, all point reads raising, the re-read raising) yields `None`. -/
theorem getFull_total_failures_yield_none (o : GetOracle) (st : SemanticCache)
    (q : String) :
    (getFull o st q = none ∨ ∃ r, getFull o st q = some r) ∧
    (o.embedOk = false ∨ o.keysOk = false → getFull o st q = none) ∧
    ((∀ k, o.readOk k = false) → getFull o st q = none) ∧
    ((∀ k, o.rereadOk k = false) → getFull o st q = none) := by
  refine ⟨?_, ?_, ?_, ?_⟩
  · cases h : getFull o st q with
    | none => exact Or.inl rfl
    | some r => exact Or.inr ⟨r, rfl⟩
  · intro h
    by_cases hav : st.is_available = false
    · simp [getFull, hav]
    · rcases h with he | hk
      · simp [getFull, hav, he]
      · simp [getFull, hav, hk]
  · intro h
    by_cases hav : st.is_available = false
    · simp [getFull, hav]
    · have hscan := scanFold_all_false o.readOk h
        (st.generate_embedding (normalize_query q)) (storeOf st) (0, none, none)
      simp [getFull, hav, hscan, reread]
  · intro h
    by_cases hav : st.is_available = false
    · simp [getFull, hav]
    · have hre : ∀ ob, reread o.rereadOk (storeOf st) ob = none := by
        intro ob
        cases ob with
        | none => rfl
        | some k => simp [reread, h k]
      simp [getFull, hav, hre]

theorem getFull_total_witness :
    getFull ⟨false, true, fun _ => true, fun _ => true⟩
      ⟨some [], some (fun _ => [(1 : ℝ)]), 1 / 2, 60⟩ ("q") = none :=
  (getFull_total_failures_yield_none ⟨false, true, fun _ => true, fun _ => true⟩
    ⟨some [], some (fun _ => [(1 : ℝ)]), 1 / 2, 60⟩ ("q")).2.1 (Or.inl rfl)

/-- C3: the scan updates its tracked maximum and best match only on a
strictly greater similarity, so (first conjunct) whenever it produces a
best-match key, that key belongs to the first enumerated well-formed
entry attaining the final maximum — every processed entry before it is
strictly below, every one after it at most equal, so the first entry
attaining the maximum wins all ties — and (second conjunct) `get` is a
deterministic function of the query, the enumerated entry sequence, the
encoder and the threshold (the remaining state, the configured TTL, is
irrelevant). -/
theorem scan_tie_break_first_wins :
    (∀ (qe : List ℝ) (l : List StoreBinding) (m : ℝ) (k : String)
        (bq : Option String),
      scanFold (fun _ => true) qe (0, none, none) l = (m, some k, bq) →
      ∃ l1 b l2, l = l1 ++ b :: l2 ∧ b.key = k ∧
        wellFormedB qe.length b.value = true ∧
        cosineSim qe (embOf b.value) = m ∧
        (∀ b' ∈ l1, wellFormedB qe.length b'.value = true →
          cosineSim qe (embOf b'.value) < m) ∧
        (∀ b' ∈ l2, wellFormedB qe.length b'.value = true →
          cosineSim qe (embOf b'.value) ≤ m)) ∧
    (∀ (st st' : SemanticCache) (q : String),
      st.redis_client = st'.redis_client → st.encoder = st'.encoder →
      st.similarity_threshold = st'.similarity_threshold →
      SemanticCache.get st q = SemanticCache.get st' q) := by
  constructor
  · intro qe l m k bq h
    rcases scanFold_spec (fun _ => true) qe l (0, none, none) with
      ⟨heq, _⟩ | ⟨l1, b, l2, hdec, _, hbwf, hsim, hkey, _, hpre, hpost⟩
    · rw [h] at heq
      exact absurd (congrArg (fun p => p.2.1) heq) (by simp)
    · rw [h] at hsim hkey hpre hpost
      refine ⟨l1, b, l2, hdec, ?_, hbwf, hsim, ?_, ?_⟩
      · have : some k = some b.key := hkey
        exact (Option.some.injEq _ _ ▸ this).symm
      · intro b' hb' hwf'
        exact hpre b' hb' rfl hwf'
      · intro b' hb' hwf'
        exact hpost b' hb' rfl hwf'
  · intro st st' q h1 h2 h3
    rcases st with ⟨rc, enc, thr, t⟩
    rcases st' with ⟨rc', enc', thr', t'⟩
    dsimp only at h1 h2 h3
    subst h1; subst h2; subst h3
    rfl

theorem scan_tie_break_witness :
    ∃ l1 b l2,
      [(⟨("query:a"), 60, .val ⟨some ("qa"), some ("ra"), some [(1 : ℝ)]⟩⟩ :
          StoreBinding),
        ⟨("query:b"), 60, .val ⟨some ("qb"), some ("rb"), some [(1 : ℝ)]⟩⟩] =
        l1 ++ b :: l2 ∧
      b.key = ("query:a") ∧
      wellFormedB [(1 : ℝ)].length b.value = true ∧
      cosineSim [(1 : ℝ)] (embOf b.value) = 1 ∧
      (∀ b' ∈ l1, wellFormedB [(1 : ℝ)].length b'.value = true →
        cosineSim [(1 : ℝ)] (embOf b'.value) < 1) ∧
      (∀ b' ∈ l2, wellFormedB [(1 : ℝ)].length b'.value = true →
        cosineSim [(1 : ℝ)] (embOf b'.value) ≤ 1) :=
  scan_tie_break_first_wins.1 [(1 : ℝ)]
    [⟨("query:a"), 60, .val ⟨some ("qa"), some ("ra"), some [(1 : ℝ)]⟩⟩,
      ⟨("query:b"), 60, .val ⟨some ("qb"), some ("rb"), some [(1 : ℝ)]⟩⟩]
    1 ("query:a") (some ("qa"))
    (by
      have hc : cosineSim [(1 : ℝ)] [(1 : ℝ)] = 1 :=
        cosineSim_self [(1 : ℝ)] (by norm_num [dot])
      norm_num [scanFold, scanStep, hc])

theorem get_available (st : SemanticCache) (q : String)
    (hav : st.is_available = true) :
    SemanticCache.get st q =
      (if (storeOf st).isEmpty then none
       else
        if st.similarity_threshold ≤
            (scanFold (fun _ => true) (st.generate_embedding (normalize_query q))
              (0, none, none) (storeOf st)).1 then
          reread (fun _ => true) (storeOf st)
            (scanFold (fun _ => true) (st.generate_embedding (normalize_query q))
              (0, none, none) (storeOf st)).2.1
        else none) := by
  have h := getFull_available ⟨true, true, fun _ => true, fun _ => true⟩ st q hav
    rfl rfl
  exact h

/-- C2 (amended): provided the threshold is strictly positive, the stored
keys are pairwise distinct and every well-formed entry carries a
`response` field, `get` is a hit — returning the response of a
well-formed entry whose similarity is the maximum — exactly when the
maximum cosine similarity over well-formed entries is `>= threshold`
(inclusive at equality), and a miss when strictly below.  The original
claim fails at `similarityThreshold = 0`: a maximum similarity of 0 never
beats the initial running maximum of 0.0, `best_match_key` stays `None`,
the re-read raises and `get` misses; see the counterexample. -/
theorem threshold_inclusive_hit_or_miss (st : SemanticCache) (q : String)
    (hav : st.is_available = true)
    (hthr : 0 < st.similarity_threshold)
    (hnd : ((storeOf st).map StoreBinding.key).Nodup)
    (hresp : ∀ b ∈ storeOf st,
      wellFormedB (st.generate_embedding (normalize_query q)).length b.value = true →
      responseOf b.value ≠ none) :
    (st.similarity_threshold ≤
        maxSimWF (st.generate_embedding (normalize_query q)) (storeOf st) →
      ∃ b ∈ storeOf st, ∃ r,
        wellFormedB (st.generate_embedding (normalize_query q)).length b.value = true ∧
        cosineSim (st.generate_embedding (normalize_query q)) (embOf b.value) =
          maxSimWF (st.generate_embedding (normalize_query q)) (storeOf st) ∧
        responseOf b.value = some r ∧
        SemanticCache.get st q = some r) ∧
    (maxSimWF (st.generate_embedding (normalize_query q)) (storeOf st) <
        st.similarity_threshold →
      SemanticCache.get st q = none) := by
  have hget := get_available st q hav
  have hM := scanFold_fst_eq_maxSimWF (st.generate_embedding (normalize_query q))
    (storeOf st)
  constructor
  · intro hhit
    have hMpos : 0 < maxSimWF (st.generate_embedding (normalize_query q)) (storeOf st) :=
      lt_of_lt_of_le hthr hhit
    have hLne : storeOf st ≠ [] := by
      intro h0
      rw [h0] at hMpos
      simp [maxSimWF] at hMpos
    rcases scanFold_spec (fun _ => true) (st.generate_embedding (normalize_query q))
        (storeOf st) (0, none, none) with
      ⟨heq, _⟩ | ⟨l1, b, l2, hdec, _, hbwf, hsim, hkey, _, _, _⟩
    · exfalso
      rw [heq] at hM
      exact absurd hM (ne_of_lt hMpos)
    · have hbmem : b ∈ storeOf st := by
        rw [hdec]
        exact List.mem_append_right _ (List.mem_cons_self b l2)
      have hrne := hresp b hbmem hbwf
      cases hropt : responseOf b.value with
      | none => exact absurd hropt hrne
      | some r =>
        refine ⟨b, hbmem, r, hbwf, ?_, hropt, ?_⟩
        · rw [hsim, hM]
        · rw [hget, if_neg (by simp [List.isEmpty_iff, hLne]),
            if_pos (by rw [hM]; exact hhit), hkey,
            reread_found (storeOf st) b hnd hbmem, hropt]
  · intro hmiss
    rw [hget]
    by_cases hemp : (storeOf st).isEmpty = true
    · rw [if_pos hemp]
    · rw [if_neg hemp, if_neg (by rw [hM]; exact not_le.mpr hmiss)]

/-- C2 counterexample: an available cache whose single stored entry is
fully well-formed, whose maximum cosine similarity (0) is greater than or
equal to the configured threshold (0) — yet `get` returns `None` instead
of the claimed hit, because a similarity equal to the initial running
maximum of 0.0 never fires the strict update, `best_match_key` stays
`None` and the re-read raises. -/
theorem threshold_zero_counterexample :
    zeroThresholdCache.is_available = true ∧
    zeroThresholdCache.similarity_threshold = 0 ∧
    (∀ b ∈ storeOf zeroThresholdCache,
      wellFormedB
          (zeroThresholdCache.generate_embedding (normalize_query ("q"))).length
          b.value = true ∧
        responseOf b.value = some ("resp")) ∧
    zeroThresholdCache.similarity_threshold ≤
      maxSimWF (zeroThresholdCache.generate_embedding (normalize_query ("q")))
        (storeOf zeroThresholdCache) ∧
    SemanticCache.get zeroThresholdCache ("q") = none := by
  have hcos : cosineSim [(1 : ℝ), 0] [(0 : ℝ), 1] = 0 := by
    have hd : dot [(1 : ℝ), 0] [(0 : ℝ), 1] = 0 := by norm_num [dot]
    simp [cosineSim, hd]
  have hmax : maxSimWF
      (zeroThresholdCache.generate_embedding (normalize_query ("q")))
      (storeOf zeroThresholdCache) = 0 := by
    simp [maxSimWF, zeroThresholdCache, storeOf, wellFormedB, embOf,
      SemanticCache.generate_embedding, hcos]
  refine ⟨rfl, rfl, ?_, ?_, ?_⟩
  · intro b hb
    simp only [storeOf, zeroThresholdCache, Option.getD_some,
      List.mem_singleton] at hb
    subst hb
    exact ⟨rfl, rfl⟩
  · rw [hmax]
    exact le_refl 0
  · rw [get_available zeroThresholdCache ("q") rfl]
    have hres : scanFold (fun _ => true)
        (zeroThresholdCache.generate_embedding (normalize_query ("q")))
        (0, none, none) (storeOf zeroThresholdCache) = (0, none, none) := by
      simp [scanFold, scanStep, zeroThresholdCache, storeOf,
        SemanticCache.generate_embedding, hcos]
    rw [hres]
    simp [storeOf, zeroThresholdCache, reread]

theorem threshold_witness :
    SemanticCache.get ⟨some [], some (fun _ => [(1 : ℝ)]), 1 / 2, 60⟩ ("q") = none :=
  (threshold_inclusive_hit_or_miss ⟨some [], some (fun _ => [(1 : ℝ)]), 1 / 2, 60⟩
    ("q") rfl (by norm_num) (by simp [storeOf]) (by simp [storeOf])).2
    (by norm_num [maxSimWF, storeOf])

/-- C8 (amended): when the cache is available and the key enumeration
succeeds, `stats` returns the operational record carrying the total
number of stored entries, the configured `similarity_threshold`, the TTL
converted to hours and rounded to one decimal — not `ttlSeconds` itself —
and the connected flag; when unavailable it returns the `unavailable`
record, which carries no counts. -/
theorem stats_shape (st st' : SemanticCache) (ko : Bool)
    (hav : st.is_available = true) (hun : st'.is_available = false) :
    statsFull true st =
      StatsResult.operational (storeOf st).length st.similarity_threshold
        (ttlHours st.ttl) true ∧
    statsFull ko st' = StatsResult.unavailable ("Cache is not operational") := by
  constructor
  · simp [statsFull, hav]
  · simp [statsFull, hun]

theorem stats_shape_witness :
    statsFull true ⟨some [], some (fun _ => [(1 : ℝ)]), 1 / 2, 60⟩ =
      StatsResult.operational
        (storeOf (⟨some [], some (fun _ => [(1 : ℝ)]), 1 / 2, 60⟩ : SemanticCache)).length
        (1 / 2) (ttlHours 60) true ∧
    statsFull true ⟨none, some (fun _ => [(1 : ℝ)]), 1 / 2, 60⟩ =
      StatsResult.unavailable ("Cache is not operational") :=
  stats_shape ⟨some [], some (fun _ => [(1 : ℝ)]), 1 / 2, 60⟩
    ⟨none, some (fun _ => [(1 : ℝ)]), 1 / 2, 60⟩ true rfl rfl

/-- C8 counterexample: with the default `ttl = 86400` seconds the stats
record carries the value 24.0 (hours, rounded to one decimal) in its TTL
field, not the configured `ttlSeconds` 86400; no field of the record
holds 86400. -/
theorem stats_ttl_counterexample :
    statsFull true ⟨some [], some (fun _ => [(1 : ℝ)]), 85 / 100, 86400⟩ =
      StatsResult.operational 0 (85 / 100) 24 true ∧ (24 : ℝ) ≠ (86400 : ℝ) := by
  constructor
  · have hth : ttlHours 86400 = 24 := by
      have h1 : ((86400 : ℕ) : ℝ) * 10 / 3600 = ((240 : ℤ) : ℝ) := by norm_num
      rw [ttlHours, h1, round_intCast]
      norm_num
    simp [statsFull, SemanticCache.is_available, storeOf, hth]
  · norm_num


/-- C5: corruption is isolated — with an available cache and pairwise
distinct stored keys, `get` over a store containing corrupt entries
(deserialization failures) and entries with a missing or wrong-width
embedding returns exactly what it returns over the subsequence of
well-formed entries alone; the skipped entries never make `get` itself
fail (it is a total function of the state). -/
theorem get_skips_malformed (st : SemanticCache) (q : String)
    (hav : st.is_available = true)
    (hnd : ((storeOf st).map StoreBinding.key).Nodup) :
    SemanticCache.get st q = SemanticCache.get (keepWellFormed st q) q := by
  have havF : (keepWellFormed st q).is_available = true := by
    simp only [SemanticCache.is_available] at hav ⊢
    simp only [Bool.and_eq_true] at hav
    simp [keepWellFormed, hav.2]
  rw [get_available st q hav, get_available _ q havF]
  have h1 : storeOf (keepWellFormed st q) =
      (storeOf st).filter
        (fun b =>
          wellFormedB (st.generate_embedding (normalize_query q)).length
            b.value) := rfl
  have h2 : (keepWellFormed st q).generate_embedding (normalize_query q) =
      st.generate_embedding (normalize_query q) := rfl
  have h3 : (keepWellFormed st q).similarity_threshold =
      st.similarity_threshold := rfl
  rw [h1, h2, h3]
  have hscan := scanFold_filter_wf (st.generate_embedding (normalize_query q))
    (storeOf st) (0, none, none)
  rw [hscan]
  by_cases hFe : ((storeOf st).filter
      (fun b =>
        wellFormedB (st.generate_embedding (normalize_query q)).length
          b.value)).isEmpty = true
  · rw [if_pos hFe]
    have hF0 : (storeOf st).filter
        (fun b =>
          wellFormedB (st.generate_embedding (normalize_query q)).length
            b.value) = [] := by
      simpa [List.isEmpty_iff] using hFe
    rw [hF0]
    by_cases hSe : (storeOf st).isEmpty = true
    · rw [if_pos hSe]
    · rw [if_neg hSe]
      simp [scanFold, reread]
  · rw [if_neg hFe]
    have hSe : (storeOf st).isEmpty = false := by
      by_contra hc
      have hS0 : storeOf st = [] := by
        have hc' : (storeOf st).isEmpty = true := by simpa using hc
        simpa [List.isEmpty_iff] using hc'
      rw [hS0] at hFe
      simp at hFe
    rw [if_neg (by simp [hSe])]
    by_cases hth : st.similarity_threshold ≤
        (scanFold (fun _ => true) (st.generate_embedding (normalize_query q))
          (0, none, none)
          ((storeOf st).filter
            (fun b =>
              wellFormedB (st.generate_embedding (normalize_query q)).length
                b.value))).1
    · rw [if_pos hth, if_pos hth]
      cases hbk : (scanFold (fun _ => true)
          (st.generate_embedding (normalize_query q)) (0, none, none)
          ((storeOf st).filter
            (fun b =>
              wellFormedB (st.generate_embedding (normalize_query q)).length
                b.value))).2.1 with
      | none => rfl
      | some k =>
        rcases scanFold_spec (fun _ => true)
            (st.generate_embedding (normalize_query q))
            ((storeOf st).filter
              (fun b =>
                wellFormedB (st.generate_embedding (normalize_query q)).length
                  b.value)) (0, none, none) with
          ⟨heq, _⟩ | ⟨l1, b, l2, hdec, _, _, _, hkey, _, _, _⟩
        · rw [heq] at hbk
          exact absurd hbk (by simp)
        · rw [hbk] at hkey
          have hkk : k = b.key := by
            simpa using hkey
          subst hkk
          have hbmemF : b ∈ (storeOf st).filter
              (fun b =>
                wellFormedB (st.generate_embedding (normalize_query q)).length
                  b.value) := by
            rw [hdec]
            exact List.mem_append_right _ (List.mem_cons_self b l2)
          have hbmemS : b ∈ storeOf st := List.mem_of_mem_filter hbmemF
          have hndF : (((storeOf st).filter
              (fun b =>
                wellFormedB (st.generate_embedding (normalize_query q)).length
                  b.value)).map StoreBinding.key).Nodup :=
            hnd.sublist ((List.filter_sublist _).map StoreBinding.key)
          rw [reread_found (storeOf st) b hnd hbmemS,
            reread_found _ b hndF hbmemF]
    · rw [if_neg hth, if_neg hth]

theorem get_skips_malformed_witness :
    SemanticCache.get
        ⟨some [⟨"query:bad", 60, .corrupt⟩], some (fun _ => [(1 : ℝ)]), 1 / 2, 60⟩
        ("q") =
      SemanticCache.get
        (keepWellFormed
          ⟨some [⟨"query:bad", 60, .corrupt⟩], some (fun _ => [(1 : ℝ)]), 1 / 2, 60⟩
          ("q"))
        ("q") :=
  get_skips_malformed
    ⟨some [⟨"query:bad", 60, .corrupt⟩], some (fun _ => [(1 : ℝ)]), 1 / 2, 60⟩
    ("q") rfl (by simp [storeOf])

/-- Re-reading the key just written by `setex` on the modelled store
yields exactly the fresh binding's value. -/
theorem reread_setKey (store : List StoreBinding) (k : String) (b : StoreBinding)
    (hb : b.key = k) :
    reread (fun _ => true) (store.filter (fun b' => b'.key != k) ++ [b])
        (some k) =
      responseOf b.value := by
  have hpre : (store.filter (fun b' => b'.key != k)).find?
      (fun x => x.key == k) = none := by
    rw [List.find?_eq_none]
    intro x hx
    rcases List.mem_filter.mp hx with ⟨_, hxne⟩
    simpa using hxne
  simp only [reread]
  rw [if_neg (by simp)]
  rw [find?_append_of_none _ _ hpre]
  simp [List.find?_cons, hb]

/-- A successful `set` call certifies that the cache was available, and
replaces the binding of the derived key with the freshly built entry,
leaving every other binding alone. -/
theorem set_success (digest : String → String) (st st1 : SemanticCache)
    (q r : String)
    (hset : SemanticCache.set digest st q r = (st1, true)) :
    st.is_available = true ∧
    st1 = { st with
      redis_client := some (setKey (storeOf st)
        ("query:" ++ digest (normalize_query q))
        ⟨"query:" ++ digest (normalize_query q), st.ttl,
          .val ⟨some (normalize_query q), some r,
            some (st.generate_embedding (normalize_query q))⟩⟩) } := by
  by_cases hav : st.is_available = false
  · simp [SemanticCache.set, setFull, hav] at hset
  · have hav' : st.is_available = true := by simpa using hav
    refine ⟨hav', ?_⟩
    simp only [SemanticCache.set, setFull, hav', Bool.true_eq_false, if_false,
      Prod.mk.injEq] at hset
    exact hset.1.symm

/-- After a successful `set digest st q r`, `get q` on the new state
returns `some r`, provided the query embedding is a nonzero vector, the
threshold is at most 1, and no other well-formed stored entry reaches
cosine similarity 1 with the query embedding. -/
theorem get_after_set (digest : String → String) (st st1 : SemanticCache)
    (q r : String)
    (hset : SemanticCache.set digest st q r = (st1, true))
    (hemb : dot (st.generate_embedding (normalize_query q))
        (st.generate_embedding (normalize_query q)) ≠ 0)
    (hthr : st.similarity_threshold ≤ 1)
    (hno : ∀ b ∈ storeOf st, b.key ≠ "query:" ++ digest (normalize_query q) →
      wellFormedB (st.generate_embedding (normalize_query q)).length b.value = true →
      cosineSim (st.generate_embedding (normalize_query q)) (embOf b.value) < 1) :
    SemanticCache.get st1 q = some r := by
  obtain ⟨hav, hst1⟩ := set_success digest st st1 q r hset
  subst hst1
  have hcos : cosineSim (st.generate_embedding (normalize_query q))
      (st.generate_embedding (normalize_query q)) = 1 :=
    cosineSim_self _ hemb
  have havN : ({ st with
      redis_client := some (setKey (storeOf st)
        ("query:" ++ digest (normalize_query q))
        ⟨"query:" ++ digest (normalize_query q), st.ttl,
          .val ⟨some (normalize_query q), some r,
            some (st.generate_embedding (normalize_query q))⟩⟩) } :
      SemanticCache).is_available = true := by
    simp only [SemanticCache.is_available] at hav ⊢
    simp only [Bool.and_eq_true] at hav
    simp [hav.2]
  rw [get_available _ q havN]
  have h1 : storeOf { st with
      redis_client := some (setKey (storeOf st)
        ("query:" ++ digest (normalize_query q))
        ⟨"query:" ++ digest (normalize_query q), st.ttl,
          .val ⟨some (normalize_query q), some r,
            some (st.generate_embedding (normalize_query q))⟩⟩) } =
      (storeOf st).filter
          (fun b' => b'.key != "query:" ++ digest (normalize_query q)) ++
        [⟨"query:" ++ digest (normalize_query q), st.ttl,
          .val ⟨some (normalize_query q), some r,
            some (st.generate_embedding (normalize_query q))⟩⟩] := rfl
  have h2 : ({ st with
      redis_client := some (setKey (storeOf st)
        ("query:" ++ digest (normalize_query q))
        ⟨"query:" ++ digest (normalize_query q), st.ttl,
          .val ⟨some (normalize_query q), some r,
            some (st.generate_embedding (normalize_query q))⟩⟩) } :
      SemanticCache).generate_embedding (normalize_query q) =
      st.generate_embedding (normalize_query q) := rfl
  have h3 : ({ st with
      redis_client := some (setKey (storeOf st)
        ("query:" ++ digest (normalize_query q))
        ⟨"query:" ++ digest (normalize_query q), st.ttl,
          .val ⟨some (normalize_query q), some r,
            some (st.generate_embedding (normalize_query q))⟩⟩) } :
      SemanticCache).similarity_threshold = st.similarity_threshold := rfl
  rw [h1, h2, h3]
  rw [if_neg (by simp)]
  have hacc0 : (scanFold (fun _ => true)
      (st.generate_embedding (normalize_query q)) (0, none, none)
      ((storeOf st).filter
        (fun b' => b'.key != "query:" ++ digest (normalize_query q)))).1 < 1 := by
    rcases scanFold_spec (fun _ => true)
        (st.generate_embedding (normalize_query q))
        ((storeOf st).filter
          (fun b' => b'.key != "query:" ++ digest (normalize_query q)))
        (0, none, none) with
      ⟨heq, _⟩ | ⟨l1, b, l2, hdec, _, hbwf, hsim, _, _, _, _⟩
    · rw [heq]
      norm_num
    · have hbmem : b ∈ (storeOf st).filter
          (fun b' => b'.key != "query:" ++ digest (normalize_query q)) := by
        rw [hdec]
        exact List.mem_append_right _ (List.mem_cons_self b l2)
      rcases List.mem_filter.mp hbmem with ⟨hbS, hbne⟩
      rw [← hsim]
      exact hno b hbS (by simpa using hbne) hbwf
  have hwfN : wellFormedB (st.generate_embedding (normalize_query q)).length
      (StoredVal.val ⟨some (normalize_query q), some r,
        some (st.generate_embedding (normalize_query q))⟩) = true := by
    simp [wellFormedB]
  have hembN : embOf (StoredVal.val ⟨some (normalize_query q), some r,
      some (st.generate_embedding (normalize_query q))⟩) =
      st.generate_embedding (normalize_query q) := by
    simp [embOf]
  have hstep := scanStep_wf_gt (st.generate_embedding (normalize_query q))
    (scanFold (fun _ => true) (st.generate_embedding (normalize_query q))
      (0, none, none)
      ((storeOf st).filter
        (fun b' => b'.key != "query:" ++ digest (normalize_query q))))
    ⟨"query:" ++ digest (normalize_query q), st.ttl,
      .val ⟨some (normalize_query q), some r,
        some (st.generate_embedding (normalize_query q))⟩⟩
    hwfN (by rw [hembN, hcos]; exact hacc0)
  have hres : scanFold (fun _ => true)
      (st.generate_embedding (normalize_query q)) (0, none, none)
      ((storeOf st).filter
          (fun b' => b'.key != "query:" ++ digest (normalize_query q)) ++
        [⟨"query:" ++ digest (normalize_query q), st.ttl,
          .val ⟨some (normalize_query q), some r,
            some (st.generate_embedding (normalize_query q))⟩⟩]) =
      scanStep (st.generate_embedding (normalize_query q))
        (scanFold (fun _ => true) (st.generate_embedding (normalize_query q))
          (0, none, none)
          ((storeOf st).filter
            (fun b' => b'.key != "query:" ++ digest (normalize_query q))))
        ⟨"query:" ++ digest (normalize_query q), st.ttl,
          .val ⟨some (normalize_query q), some r,
            some (st.generate_embedding (normalize_query q))⟩⟩ := by
    rw [scanFold_append, scanFold_cons, if_pos rfl, scanFold_nil]
  rw [hres]
  rw [if_pos (by
    rw [hstep.1, hembN, hcos]
    exact hthr)]
  rw [hstep.2]
  have hgoal : reread (fun _ => true)
      ((storeOf st).filter
          (fun b' => b'.key != "query:" ++ digest (normalize_query q)) ++
        [⟨"query:" ++ digest (normalize_query q), st.ttl,
          .val ⟨some (normalize_query q), some r,
            some (st.generate_embedding (normalize_query q))⟩⟩])
      (some ("query:" ++ digest (normalize_query q))) = some r := by
    rw [reread_setKey (storeOf st) ("query:" ++ digest (normalize_query q))
      ⟨"query:" ++ digest (normalize_query q), st.ttl,
        .val ⟨some (normalize_query q), some r,
          some (st.generate_embedding (normalize_query q))⟩⟩ rfl]
    simp [responseOf]
  exact hgoal

/-- C1: round-trip of the cache write path — if the cache is available
and `set digest st q r` succeeds, then `get q` on the resulting state
(no intervening expiry or clear: the state is exactly the one `set`
produced) returns exactly `r`.  Normalization and embedding are
deterministic functions in the model, the query embedding is a nonzero
vector, so its cosine similarity with the stored entry's embedding is
exactly 1, which meets any `similarityThreshold ≤ 1`; "no other entries
interfering" is the hypothesis that no other well-formed stored entry
reaches similarity 1. -/
theorem set_get_roundtrip (digest : String → String) (st st1 : SemanticCache)
    (q r : String)
    (hset : SemanticCache.set digest st q r = (st1, true))
    (hemb : dot (st.generate_embedding (normalize_query q))
        (st.generate_embedding (normalize_query q)) ≠ 0)
    (hthr : st.similarity_threshold ≤ 1)
    (hno : ∀ b ∈ storeOf st, b.key ≠ "query:" ++ digest (normalize_query q) →
      wellFormedB (st.generate_embedding (normalize_query q)).length b.value = true →
      cosineSim (st.generate_embedding (normalize_query q)) (embOf b.value) < 1) :
    SemanticCache.get st1 q = some r :=
  get_after_set digest st st1 q r hset hemb hthr hno

theorem set_get_roundtrip_witness :
    SemanticCache.get
        (SemanticCache.set id ⟨some [], some (fun _ => [(1 : ℝ)]), 1 / 2, 60⟩
          ("Q") ("resp")).1 ("Q") =
      some ("resp") :=
  set_get_roundtrip id ⟨some [], some (fun _ => [(1 : ℝ)]), 1 / 2, 60⟩
    (SemanticCache.set id ⟨some [], some (fun _ => [(1 : ℝ)]), 1 / 2, 60⟩
      ("Q") ("resp")).1 ("Q") ("resp") rfl
    (by norm_num [SemanticCache.generate_embedding, dot])
    (by show (1 : ℝ) / 2 ≤ 1; norm_num)
    (by simp [storeOf])

/-- Two consecutive `setex` writes to the same key leave exactly one
binding under that key: the second one. -/
theorem setKey_twice_filter (S : List StoreBinding) (k : String)
    (b1 b2 : StoreBinding) (hb2 : b2.key = k) :
    (setKey (setKey S k b1) k b2).filter (fun b => b.key == k) = [b2] := by
  have hnil : ∀ L : List StoreBinding,
      (L.filter (fun b' => b'.key != k)).filter (fun b => b.key == k) = [] := by
    intro L
    rw [List.filter_eq_nil_iff]
    intro a ha
    rcases List.mem_filter.mp ha with ⟨_, hane⟩
    simpa using hane
  simp only [setKey]
  rw [List.filter_append, hnil]
  simp [hb2]

/-- C6: single entry per normalized query with overwrite semantics —
`set(q, r1)` then `set(q, r2)` leaves exactly one binding under the
derived key `"query:" ++ digest(normalizedQuery)`, the fresh entry with
response `r2` and the expiry reset to the configured TTL; a subsequent
`get(q)` (under the same round-trip side conditions as the round-trip
property: nonzero query embedding, threshold at most 1, no other
well-formed entry reaching similarity 1) returns `r2`. -/
theorem set_overwrite (digest : String → String) (st st1 st2 : SemanticCache)
    (q r1 r2 : String)
    (h1 : SemanticCache.set digest st q r1 = (st1, true))
    (h2 : SemanticCache.set digest st1 q r2 = (st2, true))
    (hemb : dot (st.generate_embedding (normalize_query q))
        (st.generate_embedding (normalize_query q)) ≠ 0)
    (hthr : st.similarity_threshold ≤ 1)
    (hno : ∀ b ∈ storeOf st, b.key ≠ "query:" ++ digest (normalize_query q) →
      wellFormedB (st.generate_embedding (normalize_query q)).length b.value = true →
      cosineSim (st.generate_embedding (normalize_query q)) (embOf b.value) < 1) :
    (storeOf st2).filter
        (fun b => b.key == "query:" ++ digest (normalize_query q)) =
      [⟨"query:" ++ digest (normalize_query q), st.ttl,
        .val ⟨some (normalize_query q), some r2,
          some (st.generate_embedding (normalize_query q))⟩⟩] ∧
    SemanticCache.get st2 q = some r2 := by
  obtain ⟨hav, hst1⟩ := set_success digest st st1 q r1 h1
  obtain ⟨hav1, hst2⟩ := set_success digest st1 st2 q r2 h2
  have hS1 : storeOf st1 = setKey (storeOf st)
      ("query:" ++ digest (normalize_query q))
      ⟨"query:" ++ digest (normalize_query q), st.ttl,
        .val ⟨some (normalize_query q), some r1,
          some (st.generate_embedding (normalize_query q))⟩⟩ := by
    rw [hst1]
    rfl
  have hge : st1.generate_embedding (normalize_query q) =
      st.generate_embedding (normalize_query q) := by
    rw [hst1]
    rfl
  have hthr1 : st1.similarity_threshold = st.similarity_threshold := by
    rw [hst1]
  have httl1 : st1.ttl = st.ttl := by
    rw [hst1]
  have hS2 : storeOf st2 = setKey (storeOf st1)
      ("query:" ++ digest (normalize_query q))
      ⟨"query:" ++ digest (normalize_query q), st1.ttl,
        .val ⟨some (normalize_query q), some r2,
          some (st1.generate_embedding (normalize_query q))⟩⟩ := by
    rw [hst2]
    rfl
  constructor
  · rw [hS2, hS1,
      setKey_twice_filter (storeOf st) ("query:" ++ digest (normalize_query q))
        _ _ rfl, httl1, hge]
  · refine get_after_set digest st1 st2 q r2 h2 ?_ ?_ ?_
    · rw [hge]
      exact hemb
    · rw [hthr1]
      exact hthr
    · intro b hb hbne hbwf
      rw [hge] at hbwf ⊢
      rw [hS1] at hb
      simp only [setKey] at hb
      rcases List.mem_append.mp hb with hbf | hbn
      · rcases List.mem_filter.mp hbf with ⟨hbS, _⟩
        exact hno b hbS hbne hbwf
      · exfalso
        have hbeq : b = ⟨"query:" ++ digest (normalize_query q), st.ttl,
            .val ⟨some (normalize_query q), some r1,
              some (st.generate_embedding (normalize_query q))⟩⟩ := by
          simpa using hbn
        rw [hbeq] at hbne
        exact hbne rfl

theorem set_overwrite_witness :
    (storeOf (SemanticCache.set id
        (SemanticCache.set id ⟨some [], some (fun _ => [(1 : ℝ)]), 1 / 2, 60⟩
          ("Q") ("r1")).1 ("Q") ("r2")).1).filter
        (fun b => b.key == "query:" ++ id (normalize_query ("Q"))) =
      [⟨"query:" ++ id (normalize_query ("Q")),
        (⟨some [], some (fun _ => [(1 : ℝ)]), 1 / 2, 60⟩ : SemanticCache).ttl,
        .val ⟨some (normalize_query ("Q")), some ("r2"),
          some ((⟨some [], some (fun _ => [(1 : ℝ)]), 1 / 2, 60⟩ :
              SemanticCache).generate_embedding (normalize_query ("Q")))⟩⟩] ∧
    SemanticCache.get (SemanticCache.set id
        (SemanticCache.set id ⟨some [], some (fun _ => [(1 : ℝ)]), 1 / 2, 60⟩
          ("Q") ("r1")).1 ("Q") ("r2")).1 ("Q") = some ("r2") :=
  set_overwrite id ⟨some [], some (fun _ => [(1 : ℝ)]), 1 / 2, 60⟩
    (SemanticCache.set id ⟨some [], some (fun _ => [(1 : ℝ)]), 1 / 2, 60⟩
      ("Q") ("r1")).1
    (SemanticCache.set id
      (SemanticCache.set id ⟨some [], some (fun _ => [(1 : ℝ)]), 1 / 2, 60⟩
        ("Q") ("r1")).1 ("Q") ("r2")).1
    ("Q") ("r1") ("r2") rfl rfl
    (by norm_num [SemanticCache.generate_embedding, dot])
    (by show (1 : ℝ) / 2 ≤ 1; norm_num)
    (by simp [storeOf])
